import Mathlib

/-!
Verification development for the Klondike Solitaire repository.

The repository contains two independent search workers:

* the solver worker (class `KlondikeSolver`): backtracking search with a
  visited-state set, move generation, heuristic move ranking,
  move application and a win check; modelled in namespace `Solver`;
* the AI worker (class `SolitaireAIWorker`, file `ai-worker.js`): move
  generation with priorities, strategic ranking, move application with
  draw-mode stock handling, and its own win check; modelled in
  namespace `AIW`.

Modelling conventions used throughout:

* JavaScript arrays are Lean lists with the same orientation: index 0 is
  the bottom of a pile and the last element is the top (`push` appends,
  `pop` removes the last element, `arr[arr.length - 1]` is `getLast?`).
* Card values are natural numbers (1 = Ace .. 13 = King); a card is the
  triple of suit, value and face-up flag, exactly the fields the workers
  read.  Comparisons such as `card.value === top.value - 1` are written
  in the subtraction-free form `card.value + 1 = top.value`, which is
  the same equation over the JavaScript number line.
* The solver worker stores its seven tableau columns in a length-7 array
  indexed 0..6 by hard-coded loops; we model the tableau as a function
  `Fin 7 → List Card`.  Moves carry raw `Nat` indices as in the source;
  `applyMove` bound-checks them and returns `none` where the JavaScript
  code would throw (the `try`/`catch` in `applyMove` turns a throw into
  `null`).
* The wall-clock cutoff `Date.now() - startTime > maxTime` is modelled
  by an abstract oracle `clock : Nat → Bool` consulted once per `search`
  invocation on a running call counter, mirroring the one `Date.now()`
  check per call; `clock t = true` means the budget is exhausted at the
  t-th call.
* `this.visitedStates` (a JavaScript `Set` of state-hash strings) is a
  `Finset` of the hash data; the hash string of the source is modelled
  by the tuple of exactly the data it serialises (per-column card
  triples, per-suit foundation sizes, waste-top identity, stock size).
-/

inductive Suit where
  | spades
  | hearts
  | diamonds
  | clubs
deriving DecidableEq, Repr, Fintype

/-- One playing card as both workers see it: suit, numeric value
(1 = Ace .. 13 = King) and face-up flag. -/
structure Card where
  suit : Suit
  value : Nat
  faceUp : Bool
deriving DecidableEq, Repr

/-- Color test used by both workers:
`card.suit === spades || card.suit === clubs`. -/
def Card.isBlack (c : Card) : Bool :=
  decide (c.suit = Suit.spades ∨ c.suit = Suit.clubs)

/-- Identity of a card, ignoring the mutable face-up flag. -/
def cardId (c : Card) : Suit × Nat := (c.suit, c.value)

/-- Multiset of card identities in one pile. -/
def pileIds (l : List Card) : Multiset (Suit × Nat) := (l.map cardId : List (Suit × Nat))

namespace Solver

/-- Game state as consumed by the solver worker: seven tableau columns,
four foundation piles keyed by suit, stock and waste.  The auxiliary
`moves`/`startTs` bookkeeping copied by `cloneGameState` is ignored by
every solver computation and is omitted. -/
structure GameState where
  tableau : Fin 7 → List Card
  foundations : Suit → List Card
  stock : List Card
  waste : List Card

/-- Move descriptors produced by `KlondikeSolver.generateAllMoves`.  The
JavaScript objects carry `type`, `from`, `to`, `card` and (for tableau
moves) `sequenceLength`; field names `from`/`to` become
`fromCol`/`toCol`/`toSuit` here. -/
inductive Move where
  | stockToWaste
  | wasteToFoundation (toSuit : Suit) (card : Card)
  | wasteToTableau (toCol : Nat) (card : Card)
  | tableauToFoundation (fromCol : Nat) (toSuit : Suit) (card : Card)
  | tableauToTableau (fromCol toCol : Nat) (card : Card) (seqLen : Nat)
deriving DecidableEq, Repr

/-- `KlondikeSolver.canPlaceOnFoundation`: the pile consulted is always
the one keyed by the suit of the card itself; an empty pile accepts an
Ace and a non-empty pile accepts value `top.value + 1` with no suit
check on the top card. -/
def canPlaceOnFoundation (c : Card) (foundations : Suit → List Card) : Prop :=
  match (foundations c.suit).getLast? with
  | none => c.value = 1
  | some top => c.value = top.value + 1

instance (c : Card) (f : Suit → List Card) : Decidable (canPlaceOnFoundation c f) := by
  unfold canPlaceOnFoundation
  cases (f c.suit).getLast? <;> exact inferInstance

/-- `KlondikeSolver.canPlaceOnTableau`: an empty column accepts a King;
otherwise the top card must be face-up, of the opposite color, and one
rank above the placed card. -/
def canPlaceOnTableau (c : Card) (pile : List Card) : Prop :=
  match pile.getLast? with
  | none => c.value = 13
  | some top => top.faceUp = true ∧ c.isBlack ≠ top.isBlack ∧ c.value + 1 = top.value

instance (c : Card) (pile : List Card) : Decidable (canPlaceOnTableau c pile) := by
  unfold canPlaceOnTableau
  cases pile.getLast? <;> exact inferInstance

/-- Maximal face-up run at the top (end) of a column, in pile order,
as collected by the backwards `unshift` loop in `generateAllMoves`. -/
def faceUpRun (pile : List Card) : List Card :=
  (pile.reverse.takeWhile (fun c => c.faceUp)).reverse

/-- Stock-to-waste section of `generateAllMoves`. -/
def stockMoves (s : GameState) : List Move :=
  if s.stock.isEmpty then [] else [Move.stockToWaste]

/-- Waste-to-foundation section of `generateAllMoves`. -/
def wasteFoundationMoves (s : GameState) : List Move :=
  match s.waste.getLast? with
  | none => []
  | some c =>
    if canPlaceOnFoundation c s.foundations then [Move.wasteToFoundation c.suit c] else []

/-- Waste-to-tableau section of `generateAllMoves`. -/
def wasteTableauMoves (s : GameState) : List Move :=
  match s.waste.getLast? with
  | none => []
  | some c =>
    (List.finRange 7).filterMap fun col =>
      if canPlaceOnTableau c (s.tableau col) then some (Move.wasteToTableau col.val c)
      else none

/-- Tableau-to-foundation section of `generateAllMoves`. -/
def tableauFoundationMoves (s : GameState) : List Move :=
  (List.finRange 7).filterMap fun col =>
    match (s.tableau col).getLast? with
    | none => none
    | some top =>
      if top.faceUp = true ∧ canPlaceOnFoundation top s.foundations then
        some (Move.tableauToFoundation col.val top.suit top)
      else none

/-- Tableau-to-tableau section of `generateAllMoves`.  Per the source,
for every sequence length `1..faceUpRun.length` the card whose placement
is checked is `faceUpCards[0]`, the deepest face-up card, independent of
the chosen length. -/
def tableauTableauMoves (s : GameState) : List Move :=
  (List.finRange 7).flatMap fun fromCol =>
    let pile := s.tableau fromCol
    if pile.isEmpty then []
    else
      let run := faceUpRun pile
      (List.range run.length).flatMap fun k =>
        match run.head? with
        | none => []
        | some cardToMove =>
          (List.finRange 7).filterMap fun toCol =>
            if fromCol = toCol then none
            else if canPlaceOnTableau cardToMove (s.tableau toCol) then
              some (Move.tableauToTableau fromCol.val toCol.val cardToMove (k + 1))
            else none

/-- `KlondikeSolver.generateAllMoves`, with the sections in source
order. -/
def generateAllMoves (s : GameState) : List Move :=
  stockMoves s ++ wasteFoundationMoves s ++ wasteTableauMoves s ++
    tableauFoundationMoves s ++ tableauTableauMoves s

/-- Hidden-card-reveal bonus of `getMoveScore`: 500 when the source
column holds more than one card and its second-from-top card is face
down.  Out-of-range column indices give no bonus (`fromPile` would be
`undefined`). -/
def revealBonus (s : GameState) (fromCol : Nat) : Int :=
  if h : fromCol < 7 then
    let pile := s.tableau ⟨fromCol, h⟩
    if 1 < pile.length then
      match pile.dropLast.getLast? with
      | some below => if below.faceUp then 0 else 500
      | none => 0
    else 0
  else 0

/-- King-to-empty-column bonus of `getMoveScore`: 300 when the moved
card is a King and the target column exists and is empty.  For
foundation moves the target locator is a suit, `tableau[move.to]` is
`undefined`, and the bonus never applies, which this per-constructor
encoding reflects by only being invoked with numeric targets. -/
def kingBonus (s : GameState) (c : Card) (toCol : Nat) : Int :=
  if h : toCol < 7 then
    if c.value = 13 ∧ (s.tableau ⟨toCol, h⟩).isEmpty then 300 else 0
  else 0

/-- `KlondikeSolver.getMoveScore`, written per move constructor: the
foundation base bonus applies to the two `*_foundation` kinds, the
reveal bonus to moves leaving a tableau column, and the King bonus to
moves whose target locator is a column index. -/
def getMoveScore (m : Move) (s : GameState) : Int :=
  match m with
  | .stockToWaste => 0
  | .wasteToFoundation _ c => 1000 + (14 - (c.value : Int)) * 10
  | .wasteToTableau toCol c => kingBonus s c toCol
  | .tableauToFoundation fromCol _ c =>
      1000 + (14 - (c.value : Int)) * 10 + revealBonus s fromCol
  | .tableauToTableau fromCol toCol c _ => revealBonus s fromCol + kingBonus s c toCol

/-- Stable insertion used to model the JavaScript stable
`Array.prototype.sort` with comparator `scoreB - scoreA`: an element is
placed before the first list element of lower-or-equal score, so earlier
generated moves stay before later ones of equal score. -/
def insertByScore (score : Move → Int) (m : Move) : List Move → List Move
  | [] => [m]
  | x :: xs => if score x ≤ score m then m :: x :: xs else x :: insertByScore score m xs

/-- Stable sort by descending score. -/
def sortByScore (score : Move → Int) : List Move → List Move
  | [] => []
  | m :: ms => insertByScore score m (sortByScore score ms)

/-- `KlondikeSolver.rankMoves`: sort by descending `getMoveScore`. -/
def rankMoves (moves : List Move) (s : GameState) : List Move :=
  sortByScore (fun m => getMoveScore m s) moves

/-- Auto-flip of a newly exposed tableau top:
`if (pile.length > 0 && !pile[pile.length-1].faceUp) pile[...].faceUp = true`. -/
def flipTopUp (pile : List Card) : List Card :=
  match pile.getLast? with
  | none => pile
  | some top => if top.faceUp then pile else pile.dropLast ++ [{ top with faceUp := true }]

/-- `KlondikeSolver.applyMove`.  Returns `none` exactly where the
JavaScript code throws inside the `try` block (an out-of-range tableau
index makes `tableau[i]` `undefined` and the subsequent property access
or method call throw, which the `catch` turns into `null`); every other
path returns the cloned-and-updated state, including the no-op paths
guarded by emptiness or length checks. -/
def applyMove (s : GameState) (m : Move) : Option GameState :=
  match m with
  | .stockToWaste =>
    match s.stock.getLast? with
    | none => some s
    | some c => some { s with stock := s.stock.dropLast, waste := s.waste ++ [c] }
  | .wasteToFoundation toSuit _ =>
    match s.waste.getLast? with
    | none => some s
    | some c =>
      some { s with waste := s.waste.dropLast,
                    foundations :=
                      Function.update s.foundations toSuit (s.foundations toSuit ++ [c]) }
  | .wasteToTableau toCol _ =>
    match s.waste.getLast? with
    | none => some s
    | some c =>
      if h : toCol < 7 then
        some { s with waste := s.waste.dropLast,
                      tableau :=
                        Function.update s.tableau ⟨toCol, h⟩ (s.tableau ⟨toCol, h⟩ ++ [c]) }
      else none
  | .tableauToFoundation fromCol toSuit _ =>
    if h : fromCol < 7 then
      let pile := s.tableau ⟨fromCol, h⟩
      match pile.getLast? with
      | none => some s
      | some c =>
        some { s with tableau := Function.update s.tableau ⟨fromCol, h⟩ (flipTopUp pile.dropLast),
                      foundations :=
                        Function.update s.foundations toSuit (s.foundations toSuit ++ [c]) }
    else none
  | .tableauToTableau fromCol toCol _ seqLen0 =>
    let k := if seqLen0 = 0 then 1 else seqLen0
    if hf : fromCol < 7 then
      let src := s.tableau ⟨fromCol, hf⟩
      if k ≤ src.length then
        if ht : toCol < 7 then
          if fromCol = toCol then
            -- splice then push on the same (aliased) array restores it; then flip its top
            some { s with tableau := Function.update s.tableau ⟨fromCol, hf⟩ (flipTopUp src) }
          else
            let moved := src.drop (src.length - k)
            let remaining := src.take (src.length - k)
            let tgt := s.tableau ⟨toCol, ht⟩
            let t1 := Function.update s.tableau ⟨fromCol, hf⟩ (flipTopUp remaining)
            let t2 := Function.update t1 ⟨toCol, ht⟩ (tgt ++ moved)
            some { s with tableau := t2 }
        else none
      else
        -- sourcePile.length < seqLen: the guarded block is skipped, but an
        -- out-of-range target would only have thrown inside that block
        some s
    else none

/-- `KlondikeSolver.isGameWon`: the foundation pile lengths sum to 52. -/
def isGameWon (s : GameState) : Prop :=
  (s.foundations Suit.spades).length + (s.foundations Suit.hearts).length +
    (s.foundations Suit.diamonds).length + (s.foundations Suit.clubs).length = 52

instance (s : GameState) : Decidable (isGameWon s) := by
  unfold isGameWon; exact inferInstance

instance : DecidableEq (Fin 7 → List (Nat × Suit × Bool)) := inferInstance

instance : DecidableEq (Suit → Nat) := inferInstance

/-- Data serialised by `KlondikeSolver.hashGameState`: per-column card
triples, per-suit foundation sizes, the waste-top identity and the stock
size. -/
abbrev HashData :=
  (Fin 7 → List (Nat × Suit × Bool)) × (Suit → Nat) × Option (Nat × Suit) × Nat

/-- `KlondikeSolver.hashGameState`, modelled as the tuple of the exact
data the hash string serialises. -/
def hashGameState (s : GameState) : HashData :=
  (fun i => (s.tableau i).map (fun c => (c.value, c.suit, c.faceUp)),
   fun su => (s.foundations su).length,
   s.waste.getLast?.map (fun c => (c.value, c.suit)),
   s.stock.length)

/-- Result of one `search` call: the `solvable`/`bestMoves` pair is the
`Option` of the move list, together with the visited set and the call
counter after the call (the counter models successive `Date.now()`
checks). -/
structure SearchRes where
  result : Option (List Move)
  visited : Finset HashData
  tick : Nat
deriving DecidableEq

/-- Move loop of `search`: apply each ranked move in order, recurse via
`rec` (the search at the child depth), and propagate the first success;
a `null` from `applyMove` skips the move. -/
def tryMoves (rec : GameState → List Move → Finset HashData → Nat → SearchRes)
    (s : GameState) (ms : List Move) :
    List Move → Finset HashData → Nat → SearchRes
  | [], visited, tick => ⟨none, visited, tick⟩
  | m :: rest, visited, tick =>
    match applyMove s m with
    | none => tryMoves rec s ms rest visited tick
    | some s' =>
      match rec s' (ms ++ [m]) visited tick with
      | ⟨some bm, v', t'⟩ => ⟨some bm, v', t'⟩
      | ⟨none, v', t'⟩ => tryMoves rec s ms rest v' t'

/-- `KlondikeSolver.search`: the checks appear in source order (time,
depth, win, visited), the hash is inserted before the move loop and
erased again when the loop fails; `fuel` is `maxDepth - depth`, so the
`fuel = 0` equation is the `depth >= maxDepth` cutoff (in the source the
wall-clock check precedes the depth check, but at the depth cutoff both
produce the same failure result, so the fuel pattern can come first). -/
def search (clock : Nat → Bool) : Nat → GameState → List Move → Finset HashData → Nat → SearchRes
  | 0, _, _, visited, tick => ⟨none, visited, tick + 1⟩
  | fuel' + 1, s, ms, visited, tick =>
    if clock tick then ⟨none, visited, tick + 1⟩
    else if isGameWon s then ⟨some ms, visited, tick + 1⟩
    else
      let h := hashGameState s
      if h ∈ visited then ⟨none, visited, tick + 1⟩
      else
        match tryMoves (fun s' ms' v t => search clock fuel' s' ms' v t) s ms
          (rankMoves (generateAllMoves s) s) (insert h visited) (tick + 1) with
        | ⟨some bm, v', t'⟩ => ⟨some bm, v', t'⟩
        | ⟨none, v', t'⟩ => ⟨none, v'.erase h, t'⟩

/-- Result record of `KlondikeSolver.solve`.  The JavaScript `error` key
appears only when an exception escapes `search`, which cannot happen for
the typed states modelled here, so it is omitted. -/
structure SolveResult where
  solvable : Bool
  bestMoves : List Move
  minMoves : Int
deriving DecidableEq, Repr

/-- `KlondikeSolver.solve` together with the solver object's visited-set
field: the field content `visited0` from any earlier call is cleared
(`this.visitedStates.clear()`) before the search starts, and the second
component is the field content after the call. -/
def solveFrom (clock : Nat → Bool) (visited0 : Finset HashData) (s : GameState)
    (maxDepth : Nat) : SolveResult × Finset HashData :=
  let _ := visited0
  let r := search clock maxDepth s [] (∅ : Finset HashData) 0
  match r.result with
  | some bm => (⟨true, bm, (bm.length : Int)⟩, r.visited)
  | none => (⟨false, [], -1⟩, r.visited)

/-- `solve` as invoked by the worker message handler, which constructs a
fresh `KlondikeSolver` (empty visited set) per request. -/
def solve (clock : Nat → Bool) (s : GameState) (maxDepth : Nat) : SolveResult :=
  (solveFrom clock ∅ s maxDepth).1

/-- Replay a move sequence with `applyMove`, failing if any application
fails. -/
def replay (s : GameState) : List Move → Option GameState
  | [] => some s
  | m :: ms =>
    match applyMove s m with
    | none => none
    | some s' => replay s' ms

/-- States reachable from `s₀` by repeatedly applying generated moves. -/
inductive Reachable : GameState → GameState → Prop
  | refl (s : GameState) : Reachable s s
  | step {s₀ s s' : GameState} (m : Move) :
      Reachable s₀ s → m ∈ generateAllMoves s → applyMove s m = some s' → Reachable s₀ s'

/-- Multiset of card identities present anywhere in a state. -/
def cardsOf (s : GameState) : Multiset (Suit × Nat) :=
  pileIds s.stock + pileIds s.waste +
    (∑ su : Suit, pileIds (s.foundations su)) + ∑ i : Fin 7, pileIds (s.tableau i)

/-- The 52 identities of a standard deck, one of each. -/
def standardDeck : Multiset (Suit × Nat) :=
  ([Suit.spades, Suit.hearts, Suit.diamonds, Suit.clubs].flatMap fun su =>
    (List.range 13).map fun v => (su, v + 1) : List (Suit × Nat))

end Solver

namespace AIW

/-- Game state as consumed by the AI worker (`cloneGameState` copies
exactly these fields): a list of tableau columns, suit-keyed
foundations, stock, waste and the draw mode. -/
structure AIState where
  tableau : List (List Card)
  foundations : Suit → List Card
  stock : List Card
  waste : List Card
  drawMode : Nat

/-- `cloneGameState` normalises the draw mode with
`state.drawMode || 3`. -/
def cloneNorm (s : AIState) : AIState :=
  { s with drawMode := if s.drawMode = 0 then 3 else s.drawMode }

/-- Move objects of `generateAllPossibleMoves`.  The `from`/`to`
locator objects become plain fields; `priority` is kept; the advisory
`stockRecommendation` payload of the draw move is dropped as pure UI
text. -/
inductive AIMove where
  | tableauToFoundation (fromIdx : Nat) (toSuit : Suit) (card : Card) (priority : Int)
  | wasteToFoundation (toSuit : Suit) (card : Card) (priority : Int)
  | tableauToTableau (fromIdx toIdx : Nat) (card : Card) (priority : Int)
  | drawStock (priority : Int) (drawsNeeded : Nat)
deriving DecidableEq, Repr

/-- `SolitaireAIWorker.canPlaceOnFoundation`: an empty pile accepts an
Ace of any suit; a non-empty pile requires matching suit and the next
value. -/
def canPlaceOnFoundation (c : Card) (pile : List Card) : Prop :=
  match pile.getLast? with
  | none => c.value = 1
  | some top => top.suit = c.suit ∧ top.value + 1 = c.value

instance (c : Card) (pile : List Card) : Decidable (canPlaceOnFoundation c pile) := by
  unfold canPlaceOnFoundation
  cases pile.getLast? <;> exact inferInstance

/-- `SolitaireAIWorker.canPlaceOnTableau`. -/
def canPlaceOnTableau (c : Card) (pile : List Card) : Prop :=
  match pile.getLast? with
  | none => c.value = 13
  | some top => top.faceUp = true ∧ c.isBlack ≠ top.isBlack ∧ c.value + 1 = top.value

instance (c : Card) (pile : List Card) : Decidable (canPlaceOnTableau c pile) := by
  unfold canPlaceOnTableau
  cases pile.getLast? <;> exact inferInstance

/-- Foundation keys in the iteration order of
`Object.keys(state.foundations)` (object insertion order; no claim here
depends on this order). -/
def suitKeys : List Suit := [Suit.spades, Suit.hearts, Suit.diamonds, Suit.clubs]

/-- Second-from-top card of a pile is present and face-down
(`pile.length > 1 && !pile[pile.length - 2].faceUp`). -/
def hiddenBelowTop (pile : List Card) : Prop :=
  1 < pile.length ∧ pile.dropLast.getLast?.map Card.faceUp = some false

instance (pile : List Card) : Decidable (hiddenBelowTop pile) := by
  unfold hiddenBelowTop; exact inferInstance

/-- Tableau-to-foundation section of `generateAllPossibleMoves`: every
face-up column top is tried against the pile of every suit key. -/
def tfMoves (s : AIState) : List AIMove :=
  (List.range s.tableau.length).flatMap fun i =>
    let pile := s.tableau.getD i []
    match pile.getLast? with
    | none => []
    | some top =>
      if top.faceUp then
        suitKeys.filterMap fun su =>
          if canPlaceOnFoundation top (s.foundations su) then
            some (AIMove.tableauToFoundation i su top (1000 + (top.value : Int)))
          else none
      else []

/-- Waste-to-foundation section of `generateAllPossibleMoves`: the waste
top is tried against the pile of every suit key. -/
def wfMoves (s : AIState) : List AIMove :=
  match s.waste.getLast? with
  | none => []
  | some top =>
    suitKeys.filterMap fun su =>
      if canPlaceOnFoundation top (s.foundations su) then
        some (AIMove.wasteToFoundation su top (900 + (top.value : Int)))
      else none

/-- Tableau-to-tableau section of `generateAllPossibleMoves` (single
top cards only, with reveal and King-to-empty priority bonuses). -/
def ttMoves (s : AIState) : List AIMove :=
  (List.range s.tableau.length).flatMap fun i =>
    let fromPile := s.tableau.getD i []
    match fromPile.getLast? with
    | none => []
    | some top =>
      if top.faceUp then
        (List.range s.tableau.length).filterMap fun j =>
          if i ≠ j ∧ canPlaceOnTableau top (s.tableau.getD j []) then
            let p1 : Int := 200
            let p2 := if hiddenBelowTop fromPile then p1 + 300 else p1
            let p3 := if top.value = 13 ∧ (s.tableau.getD j []).isEmpty then p2 + 200 else p2
            some (AIMove.tableauToTableau i j top p3)
          else none
      else []

/-- `SolitaireAIWorker.isCardUsefulInPosition`. -/
def isCardUsefulInPosition (c : Card) (s : AIState) : Bool :=
  decide (∃ su : Suit, canPlaceOnFoundation c (s.foundations su)) ||
    (List.range s.tableau.length).any fun i =>
      decide (canPlaceOnTableau c (s.tableau.getD i []))

/-- Loop body of `simulateStockDraws` on scratch copies of stock and
waste; the countdown is `maxDraws` minus the draws already simulated and
`drawNum` is the 1-based draw number recorded in each entry. -/
def simDraws (s : AIState) (dm : Nat) :
    Nat → Nat → List Card → List Card → List (Card × Nat × Bool)
  | 0, _, _, _ => []
  | fuel + 1, drawNum, stockC, wasteC =>
    if stockC.isEmpty ∧ wasteC.isEmpty then []
    else
      let st := if stockC.isEmpty then wasteC.reverse else stockC
      let wa := if stockC.isEmpty then [] else wasteC
      let k := min dm st.length
      let drawn := st.drop (st.length - k)
      let rest := st.take (st.length - k)
      match drawn.getLast? with
      | none => simDraws s dm fuel (drawNum + 1) rest wa
      | some top =>
        (top, drawNum, isCardUsefulInPosition top s) ::
          simDraws s dm fuel (drawNum + 1) rest (wa ++ drawn)

/-- `SolitaireAIWorker.simulateStockDraws`. -/
def simulateStockDraws (s : AIState) (maxDraws : Nat) : List (Card × Nat × Bool) :=
  simDraws s (if s.drawMode = 0 then 3 else s.drawMode) maxDraws 1 s.stock s.waste

/-- Draw recommendation record returned by `analyzeStock`; the advisory
`reason`/`priority` strings consumed only by the UI are dropped. -/
structure StockRec where
  shouldDraw : Bool
  drawsNeeded : Nat
deriving DecidableEq, Repr

/-- Body of `SolitaireAIWorker.analyzeStock` with the result of its
internal `generateAllPossibleMoves(state)` call passed in as `availOpt`
(`none` when that call overflows the stack, in which case the exception
propagates). -/
def analyzeStockGiven (availOpt : Option (List AIMove)) (s : AIState) : Option StockRec :=
  if s.stock.length = 0 ∧ s.waste.length = 0 then some ⟨false, 0⟩
  else
    let upcoming := simulateStockDraws s 10
    let nextUseful := upcoming.find? fun e => e.2.2
    match availOpt with
    | none => none
    | some avail =>
      let tableauMoves := avail.filter fun m =>
        match m with
        | .tableauToFoundation _ _ _ _ => true
        | .tableauToTableau _ _ _ _ => true
        | _ => false
      if tableauMoves.length = 0 then
        match nextUseful with
        | some e => some ⟨true, e.2.1⟩
        | none => some ⟨true, 1⟩
      else
        match nextUseful with
        | some e =>
          if tableauMoves.length < 2 ∧ e.2.1 ≤ 3 then some ⟨true, e.2.1⟩
          else if e.2.1 ≤ 5 then some ⟨false, e.2.1⟩
          else some ⟨false, 0⟩
        | none => some ⟨false, 0⟩

/-- `SolitaireAIWorker.generateAllPossibleMoves`.  The draw-stock
section calls `analyzeStock`, which in turn calls
`generateAllPossibleMoves` on the same state, so the two functions are
mutually recursive with no progress; `fuel` is the remaining JavaScript
call-stack depth and `none` models the resulting stack-overflow
exception.  Whenever stock or waste is non-empty the recursion never
bottoms out, so the source function only returns on states with both
empty. -/
def generateAllPossibleMoves : Nat → AIState → Option (List AIMove)
  | fuel, s =>
    let base := tfMoves s ++ wfMoves s ++ ttMoves s
    if 0 < s.stock.length ∨ 0 < s.waste.length then
      match fuel with
      | 0 => none
      | fuel' + 1 =>
        match analyzeStockGiven (generateAllPossibleMoves fuel' s) s with
        | none => none
        | some sr =>
          some (base ++ [AIMove.drawStock (if sr.shouldDraw then 15 else 5)
            (if sr.drawsNeeded = 0 then 1 else sr.drawsNeeded)])
    else some base

/-- Auto-flip of a newly exposed column top in `applyMoveToState`. -/
def flipNewTop (pile : List Card) : List Card :=
  match pile.getLast? with
  | none => pile
  | some top => if top.faceUp then pile else pile.dropLast ++ [{ top with faceUp := true }]

/-- `SolitaireAIWorker.applyMoveToState`.  The function first clones the
state (normalising `drawMode`).  Return-value conventions for the error
paths of the source: an out-of-range column index makes `tableau[i]`
`undefined`, the subsequent `.pop()`/`.push()` throws, and the `catch`
returns the ORIGINAL state, modelled as `some s`; popping an EMPTY pile
yields `undefined` and the code then pushes `undefined` into the target
pile without throwing, corrupting the state with a non-card entry,
which is modelled as `none`. -/
def applyMoveToState (s : AIState) (m : AIMove) : Option AIState :=
  let n := cloneNorm s
  match m with
  | .tableauToFoundation i su _ _ =>
    if i < n.tableau.length then
      let pile := n.tableau.getD i []
      match pile.getLast? with
      | none => none
      | some c =>
        some { n with tableau := n.tableau.set i (flipNewTop pile.dropLast),
                      foundations :=
                        Function.update n.foundations su (n.foundations su ++ [c]) }
    else some s
  | .wasteToFoundation su _ _ =>
    match n.waste.getLast? with
    | none => none
    | some c =>
      some { n with waste := n.waste.dropLast,
                    foundations :=
                      Function.update n.foundations su (n.foundations su ++ [c]) }
  | .tableauToTableau i j _ _ =>
    if i < n.tableau.length then
      let pile := n.tableau.getD i []
      match pile.getLast? with
      | none => if j < n.tableau.length then none else some s
      | some c =>
        if j < n.tableau.length then
          if i = j then
            -- pop then push on the same (aliased) array restores it; then flip its top
            some { n with tableau := n.tableau.set i (flipNewTop pile) }
          else
            let tgt := n.tableau.getD j []
            some { n with tableau :=
              (n.tableau.set i (flipNewTop pile.dropLast)).set j (tgt ++ [c]) }
        else some s
    else some s
  | .drawStock _ _ =>
    if 0 < n.stock.length then
      let k := min (if n.drawMode = 0 then 3 else n.drawMode) n.stock.length
      some { n with stock := n.stock.take (n.stock.length - k),
                    waste := n.waste ++ n.stock.drop (n.stock.length - k) }
    else if 0 < n.waste.length then
      some { n with stock := n.waste.reverse, waste := [] }
    else some n

/-- `SolitaireAIWorker.isGameWon`: every foundation pile has length
13. -/
def isGameWon (s : AIState) : Prop :=
  ∀ su : Suit, (s.foundations su).length = 13

instance (s : AIState) : Decidable (isGameWon s) := by
  unfold isGameWon; exact inferInstance

/-- Multiset of card identities present anywhere in an AI-worker
state. -/
def cardsOf (s : AIState) : Multiset (Suit × Nat) :=
  pileIds s.stock + pileIds s.waste +
    (∑ su : Suit, pileIds (s.foundations su)) + (s.tableau.map pileIds).sum

end AIW

/-- The foundation placement rule exactly as the specification states
it: card C may be placed on foundation F iff (F empty and C is an Ace)
or (F non-empty and C matches the suit of the top card and has its value
plus one).  Written from the claim wording, to be compared against the
placement checks of both workers. -/
def claimFoundationRule (c : Card) (pile : List Card) : Prop :=
  (pile = [] ∧ c.value = 1) ∨
    ∃ top, pile.getLast? = some top ∧ top.suit = c.suit ∧ c.value = top.value + 1

instance (c : Card) (pile : List Card) : Decidable (claimFoundationRule c pile) := by
  unfold claimFoundationRule; exact inferInstance

/-- Foundation piles are internally suit-homogeneous: every card on the
pile keyed by a suit has that suit.  This is an invariant of legal
states; the solver worker's placement check relies on it because it
never compares suits. -/
def homogFoundations (s : Solver.GameState) : Prop :=
  ∀ su : Suit, ∀ c ∈ s.foundations su, c.suit = su

instance (s : Solver.GameState) : Decidable (homogFoundations s) := by
  unfold homogFoundations; exact inferInstance

/-- Every card in the state has a value of at most 13 (the King); true
of any state built from real cards. -/
def cardValuesBounded (s : Solver.GameState) : Prop :=
  (∀ c ∈ s.stock, c.value ≤ 13) ∧ (∀ c ∈ s.waste, c.value ≤ 13) ∧
    (∀ su : Suit, ∀ c ∈ s.foundations su, c.value ≤ 13) ∧
    (∀ i : Fin 7, ∀ c ∈ s.tableau i, c.value ≤ 13)

instance (s : Solver.GameState) : Decidable (cardValuesBounded s) := by
  unfold cardValuesBounded; exact inferInstance

/-- Foundation-category test of the solver worker's scorer:
`move.type.includes` with the string `foundation`. -/
def isFoundationMove : Solver.Move → Prop
  | .wasteToFoundation _ _ => True
  | .tableauToFoundation _ _ _ => True
  | _ => False

instance (m : Solver.Move) : Decidable (isFoundationMove m) := by
  unfold isFoundationMove
  cases m <;> exact inferInstance

/-- Clock oracle for concrete runs: the wall-clock budget is never
exhausted. -/
def clk0 : Nat → Bool := fun _ => false

/-- Four complete foundation piles, Ace to King per suit. -/
def fullFoundations : Suit → List Card :=
  fun su => (List.range 13).map fun v => ⟨su, v + 1, true⟩

/-- Solver-worker state with every card already on the foundations. -/
def wonState : Solver.GameState := ⟨fun _ => [], fullFoundations, [], []⟩

/-- Solver-worker state with no cards at all (malformed: 0 of 52). -/
def emptyState : Solver.GameState := ⟨fun _ => [], fun _ => [], [], []⟩

/-- Malformed solver-worker state: 52 duplicated copies of the Ace of
spades on the spades foundation. -/
def dupState : Solver.GameState :=
  ⟨fun _ => [],
   fun su => match su with
     | Suit.spades => List.replicate 52 ⟨Suit.spades, 1, true⟩
     | _ => [],
   [], []⟩

/-- Solver-worker state exhibiting the tableau-to-tableau generation
slip: column 0 has the face-up run 5 of spades under 4 of hearts, and
column 1 is topped by the face-up 6 of hearts. -/
def seqState : Solver.GameState :=
  ⟨fun i =>
     if i.val = 0 then [⟨Suit.spades, 5, true⟩, ⟨Suit.hearts, 4, true⟩]
     else if i.val = 1 then [⟨Suit.hearts, 6, true⟩]
     else [],
   fun _ => [], [], []⟩

/-- The length-1 tableau-to-tableau move the generator offers from
`seqState`: its legality was checked against the 5 of spades, yet
applying it relocates the 4 of hearts. -/
def seqBadMove : Solver.Move :=
  Solver.Move.tableauToTableau 0 1 ⟨Suit.spades, 5, true⟩ 1

/-- AI-worker state with every card already on the foundations. -/
def aiWonState : AIW.AIState := ⟨[], fullFoundations, [], [], 3⟩

/-- AI-worker state whose only card is a face-up Ace of spades on
tableau column 0, with all four foundations empty; stock and waste are
empty so `generateAllPossibleMoves` terminates. -/
def aiAceState : AIW.AIState :=
  ⟨[[⟨Suit.spades, 1, true⟩]], fun _ => [], [], [], 3⟩

/-- AI-worker state with a single face-down card in the stock. -/
def aiDrawState : AIW.AIState :=
  ⟨[], fun _ => [], [⟨Suit.spades, 5, false⟩], [], 3⟩

/-- AI-worker state with three face-up cards in the waste and an empty
stock, about to recycle. -/
def aiRecycleState : AIW.AIState :=
  ⟨[], fun _ => [],
   [], [⟨Suit.spades, 5, true⟩, ⟨Suit.hearts, 9, true⟩, ⟨Suit.clubs, 2, true⟩], 3⟩

/-- Singleton visited set holding the hash of `emptyState`, used to
exercise the already-visited branch of `search`. -/
def visitedSeed : Finset Solver.HashData := {Solver.hashGameState emptyState}

theorem pileIds_append (l₁ l₂ : List Card) :
    pileIds (l₁ ++ l₂) = pileIds l₁ + pileIds l₂ := by
  simp [pileIds]

theorem pileIds_of_getLast (l : List Card) (c : Card) (h : l.getLast? = some c) :
    pileIds l = pileIds l.dropLast + pileIds [c] := by
  obtain ⟨l', rfl⟩ := List.getLast?_eq_some_iff.mp h
  rw [List.dropLast_concat, pileIds_append]

theorem AIW.applyMove_drawStock (s : AIW.AIState) (p : Int) (dn : Nat) :
    AIW.applyMoveToState s (.drawStock p dn) =
      (let n := AIW.cloneNorm s
       if 0 < n.stock.length then
         let k := min (if n.drawMode = 0 then 3 else n.drawMode) n.stock.length
         some { n with stock := n.stock.take (n.stock.length - k),
                       waste := n.waste ++ n.stock.drop (n.stock.length - k) }
       else if 0 < n.waste.length then some { n with stock := n.waste.reverse, waste := [] }
       else some n) := rfl

/-- C9: under the hypothesis that each of the four foundation piles
holds at most 13 cards, the solver worker's win check (foundation
lengths sum to 52) holds iff the AI worker's win check (every foundation
pile has length exactly 13) holds, for states sharing the same
foundations. -/
theorem C9_win_checks_agree (s : Solver.GameState) (t : AIW.AIState)
    (hf : s.foundations = t.foundations)
    (hb : ∀ su : Suit, (t.foundations su).length ≤ 13) :
    Solver.isGameWon s ↔ AIW.isGameWon t := by
  unfold Solver.isGameWon AIW.isGameWon
  rw [hf]
  have h1 := hb Suit.spades
  have h2 := hb Suit.hearts
  have h3 := hb Suit.diamonds
  have h4 := hb Suit.clubs
  constructor
  · intro h su
    cases su <;> omega
  · intro h
    rw [h Suit.spades, h Suit.hearts, h Suit.diamonds, h Suit.clubs]

theorem C9_win_checks_agree_witness :
    (Solver.isGameWon wonState ↔ AIW.isGameWon aiWonState) ∧ Solver.isGameWon wonState :=
  ⟨C9_win_checks_agree wonState aiWonState rfl (by decide), by decide⟩

/-- C10: `solve` clears the solver object's visited set on entry, so
for a fixed clock oracle (time budget behaviour), state and depth bound,
the result is identical whatever visited-set contents were left over
from earlier calls on the same solver object. -/
theorem C10_no_visited_state_bleed (clock : Nat → Bool) (s : Solver.GameState)
    (maxDepth : Nat) (v₁ v₂ : Finset Solver.HashData) :
    (Solver.solveFrom clock v₁ s maxDepth).1 = (Solver.solveFrom clock v₂ s maxDepth).1 := rfl

/-- C8 (amended): the solve entry point performs no input validation at
all — its outcome is exactly the outcome of running the search, for
every input state including malformed ones; concretely, a state made of
52 duplicated Aces of spades is searched normally and even reported
solvable, with no invalid-state signal of any kind. -/
theorem C8_no_input_validation :
    (∀ (clock : Nat → Bool) (v : Finset Solver.HashData) (s : Solver.GameState)
      (maxDepth : Nat),
      (Solver.solveFrom clock v s maxDepth).1.solvable =
        (Solver.search clock maxDepth s [] ∅ 0).result.isSome) ∧
    (Solver.solve clk0 dupState 5).solvable = true ∧ ¬(Solver.cardsOf dupState).Nodup := by
  refine ⟨fun clock v s maxDepth => ?_, by decide, by decide⟩
  cases h : (Solver.search clock maxDepth s [] ∅ 0).result <;>
    simp [Solver.solveFrom, h]

/-- C8 (counterexample to the claim as stated): `dupState` is malformed
(it contains the Ace of spades 52 times), yet `solve` does not reject it
with an invalid-state signal — it runs the search and returns an
ordinary result that even reports the state solvable. -/
theorem C8_counterexample :
    ¬(Solver.cardsOf dupState).Nodup ∧
      (Solver.solve clk0 dupState 5).solvable = true ∧
      (Solver.solve clk0 dupState 5).bestMoves = [] :=
  ⟨by decide, by decide, by decide⟩

/-- C4 (amended): the AI worker's stock draw moves exactly
`min(drawMode, stock length)` cards from the top of the stock to the top
of the waste with every card record unchanged (face flags preserved, not
flipped); with an empty stock and non-empty waste it replaces the stock
by the reversed waste, again preserving face flags; the solver worker's
`stock_to_waste` instead always moves exactly one card and leaves an
empty stock untouched (no recycling). -/
theorem C4_stock_draw_semantics :
    (∀ (s : AIW.AIState) (p : Int) (dn : Nat), 0 < s.stock.length →
      AIW.applyMoveToState s (.drawStock p dn) =
        some { AIW.cloneNorm s with
                 stock := s.stock.take (s.stock.length -
                   min (if s.drawMode = 0 then 3 else s.drawMode) s.stock.length),
                 waste := s.waste ++ s.stock.drop (s.stock.length -
                   min (if s.drawMode = 0 then 3 else s.drawMode) s.stock.length) } ∧
      (s.stock.drop (s.stock.length -
          min (if s.drawMode = 0 then 3 else s.drawMode) s.stock.length)).length =
        min (if s.drawMode = 0 then 3 else s.drawMode) s.stock.length) ∧
    (∀ (s : AIW.AIState) (p : Int) (dn : Nat), s.stock = [] → 0 < s.waste.length →
      AIW.applyMoveToState s (.drawStock p dn) =
        some { AIW.cloneNorm s with stock := s.waste.reverse, waste := [] }) ∧
    (∀ (s : Solver.GameState) (c : Card), s.stock.getLast? = some c →
      Solver.applyMove s .stockToWaste =
        some { s with stock := s.stock.dropLast, waste := s.waste ++ [c] }) ∧
    (∀ s : Solver.GameState, s.stock = [] →
      Solver.applyMove s .stockToWaste = some s) := by
  refine ⟨fun s p dn h => ?_, fun s p dn h h' => ?_, fun s c h => ?_, fun s h => ?_⟩
  · have hdm : (if (AIW.cloneNorm s).drawMode = 0 then 3 else (AIW.cloneNorm s).drawMode) =
        (if s.drawMode = 0 then 3 else s.drawMode) := by
      unfold AIW.cloneNorm
      by_cases h0 : s.drawMode = 0 <;> simp [h0]
    constructor
    · rw [AIW.applyMove_drawStock]
      have hs : 0 < (AIW.cloneNorm s).stock.length := h
      simp only [if_pos hs, hdm]
      simp [AIW.cloneNorm]
    · rw [List.length_drop]
      have := Nat.min_le_right (if s.drawMode = 0 then 3 else s.drawMode) s.stock.length
      omega
  · rw [AIW.applyMove_drawStock]
    have hs : ¬0 < (AIW.cloneNorm s).stock.length := by
      simp [AIW.cloneNorm, h]
    simp only [if_neg hs, if_pos (show 0 < (AIW.cloneNorm s).waste.length from h')]
    simp [AIW.cloneNorm]
  · unfold Solver.applyMove
    rw [h]
  · unfold Solver.applyMove
    rw [h]
    rfl

theorem C4_stock_draw_semantics_witness :
    AIW.applyMoveToState aiRecycleState (.drawStock 5 1) =
      some { AIW.cloneNorm aiRecycleState with
               stock := aiRecycleState.waste.reverse, waste := [] } ∧
    (AIW.applyMoveToState aiDrawState (.drawStock 5 1)).map AIW.AIState.waste =
      some [⟨Suit.spades, 5, false⟩] ∧
    Solver.applyMove emptyState .stockToWaste = some emptyState := by
  refine ⟨C4_stock_draw_semantics.2.1 aiRecycleState 5 1 rfl (by decide), ?_,
    C4_stock_draw_semantics.2.2.2 emptyState rfl⟩
  rw [(C4_stock_draw_semantics.1 aiDrawState 5 1 (by decide)).1]
  decide

/-- C4 (counterexample to the claim as stated): drawing the single
face-down 5 of spades from the stock leaves it face-down on the waste;
the claim requires every transferred card to be flipped face-up. -/
theorem C4_counterexample :
    0 < aiDrawState.stock.length ∧
      (AIW.applyMoveToState aiDrawState (.drawStock 5 1)).map AIW.AIState.waste =
        some [⟨Suit.spades, 5, false⟩] :=
  ⟨by decide, by decide⟩

/-- C5: concrete run of the tableau-to-tableau generation slip.  From
`seqState` (column 0 face-up run: 5 of spades under 4 of hearts; column
1 top: face-up 6 of hearts) the generator offers a `sequenceLength = 1`
move whose legality was checked against the 5 of spades; applying it
relocates the 4 of hearts onto the 6 of hearts, a placement that
violates the tableau rule the claim requires for the moved sub-suffix's
bottom card. -/
theorem C5_generation_checks_wrong_card :
    seqBadMove ∈ Solver.generateAllMoves seqState ∧
      (Solver.applyMove seqState seqBadMove).map (fun s => s.tableau 1) =
        some [⟨Suit.hearts, 6, true⟩, ⟨Suit.hearts, 4, true⟩] ∧
      ¬Solver.canPlaceOnTableau ⟨Suit.hearts, 4, true⟩ [⟨Suit.hearts, 6, true⟩] :=
  ⟨by decide, by decide, by decide⟩

theorem tryMoves_restores
    (rec : Solver.GameState → List Solver.Move → Finset Solver.HashData → Nat → Solver.SearchRes)
    (hrec : ∀ s' ms' v' t', (rec s' ms' v' t').result = none → (rec s' ms' v' t').visited = v')
    (s : Solver.GameState) (ms : List Solver.Move) :
    ∀ (moves : List Solver.Move) (v : Finset Solver.HashData) (t : Nat),
      (Solver.tryMoves rec s ms moves v t).result = none →
      (Solver.tryMoves rec s ms moves v t).visited = v := by
  intro moves
  induction moves with
  | nil => intro v t _; rfl
  | cons m rest ih =>
    intro v t h
    rcases ha : Solver.applyMove s m with _ | s'
    · simp only [Solver.tryMoves, ha] at h ⊢
      exact ih v t h
    · simp only [Solver.tryMoves, ha] at h ⊢
      have hrx := hrec s' (ms ++ [m]) v t
      revert h
      rcases hr : rec s' (ms ++ [m]) v t with ⟨_ | bm, v2, t2⟩ <;> rw [hr] at hrx <;>
        dsimp only <;> intro h
      · exact (ih v2 t2 h).trans (hrx rfl)
      · cases h

theorem search_restores (clock : Nat → Bool) :
    ∀ (fuel : Nat) (s : Solver.GameState) (ms : List Solver.Move)
      (v : Finset Solver.HashData) (t : Nat),
      (Solver.search clock fuel s ms v t).result = none →
      (Solver.search clock fuel s ms v t).visited = v := by
  intro fuel
  induction fuel with
  | zero => intro s ms v t _; rfl
  | succ fuel ih =>
    intro s ms v t h
    by_cases hc : clock t
    · simp [Solver.search, hc]
    · by_cases hw : Solver.isGameWon s
      · simp [Solver.search, hc, hw] at h
      · by_cases hv : Solver.hashGameState s ∈ v
        · simp [Solver.search, hc, hw, hv]
        · have hrest := tryMoves_restores
            (fun s' ms' v t => Solver.search clock fuel s' ms' v t)
            (fun s' ms' v' t' => ih s' ms' v' t') s ms
            (Solver.rankMoves (Solver.generateAllMoves s) s)
            (insert (Solver.hashGameState s) v) (t + 1)
          simp only [Solver.search, hc, hw, hv, Bool.false_eq_true, if_false, ite_false] at h ⊢
          revert h
          rcases htm : Solver.tryMoves (fun s' ms' v t => Solver.search clock fuel s' ms' v t)
              s ms (Solver.rankMoves (Solver.generateAllMoves s) s)
              (insert (Solver.hashGameState s) v) (t + 1) with ⟨_ | bm, v2, t2⟩ <;>
            rw [htm] at hrest <;> dsimp only <;> intro h
          · have hv2 : v2 = insert (Solver.hashGameState s) v := hrest rfl
            rw [hv2]
            exact Finset.erase_insert hv
          · cases h

/-- C6: the search inserts the state hash before recursing and removes
it again when the branch fails, so any `search` call that returns a
non-solvable result leaves the visited set exactly as it found it (the
same state may be revisited later via a different path); and a state
whose hash is already present (when the time, depth and win checks have
all passed it by) is immediately a failed branch that leaves the visited
set untouched. -/
theorem C6_visited_set_discipline :
    (∀ (clock : Nat → Bool) (fuel : Nat) (s : Solver.GameState) (ms : List Solver.Move)
        (v : Finset Solver.HashData) (t : Nat),
        (Solver.search clock fuel s ms v t).result = none →
        (Solver.search clock fuel s ms v t).visited = v) ∧
    (∀ (clock : Nat → Bool) (fuel : Nat) (s : Solver.GameState) (ms : List Solver.Move)
        (v : Finset Solver.HashData) (t : Nat),
        Solver.hashGameState s ∈ v → clock t = false → ¬Solver.isGameWon s →
        Solver.search clock (fuel + 1) s ms v t = ⟨none, v, t + 1⟩) := by
  constructor
  · exact fun clock fuel => search_restores clock fuel
  · intro clock fuel s ms v t hv hc hw
    simp [Solver.search, hc, hw, hv]

theorem C6_visited_set_discipline_witness :
    (Solver.search clk0 1 emptyState [] ∅ 0).visited = ∅ ∧
      Solver.search clk0 1 emptyState [] visitedSeed 0 = ⟨none, visitedSeed, 1⟩ :=
  ⟨C6_visited_set_discipline.1 clk0 1 emptyState [] ∅ 0 (by decide),
   C6_visited_set_discipline.2 clk0 0 emptyState [] visitedSeed 0 (by decide) rfl (by decide)⟩

theorem tryMoves_sound
    (rec : Solver.GameState → List Solver.Move → Finset Solver.HashData → Nat → Solver.SearchRes)
    (hrec : ∀ s' ms' v' t' bm, (rec s' ms' v' t').result = some bm →
      ∃ suffix w, bm = ms' ++ suffix ∧ Solver.replay s' suffix = some w ∧ Solver.isGameWon w)
    (s : Solver.GameState) (ms : List Solver.Move) :
    ∀ (moves : List Solver.Move) (v : Finset Solver.HashData) (t : Nat)
      (bm : List Solver.Move),
      (Solver.tryMoves rec s ms moves v t).result = some bm →
      ∃ suffix w, bm = ms ++ suffix ∧ Solver.replay s suffix = some w ∧ Solver.isGameWon w := by
  intro moves
  induction moves with
  | nil => intro v t bm h; cases h
  | cons m rest ih =>
    intro v t bm h
    rcases ha : Solver.applyMove s m with _ | s'
    · simp only [Solver.tryMoves, ha] at h
      exact ih v t bm h
    · simp only [Solver.tryMoves, ha] at h
      revert h
      rcases hr : rec s' (ms ++ [m]) v t with ⟨_ | bm', v2, t2⟩ <;> dsimp only <;> intro h
      · exact ih v2 t2 bm h
      · injection h with h
        subst h
        obtain ⟨suffix, w, hbm, hrep, hw⟩ :=
          hrec s' (ms ++ [m]) v t bm' (by rw [hr])
        refine ⟨m :: suffix, w, ?_, ?_, hw⟩
        · rw [hbm]
          simp
        · simp only [Solver.replay, ha]
          exact hrep

theorem search_sound (clock : Nat → Bool) :
    ∀ (fuel : Nat) (s : Solver.GameState) (ms : List Solver.Move)
      (v : Finset Solver.HashData) (t : Nat) (bm : List Solver.Move),
      (Solver.search clock fuel s ms v t).result = some bm →
      ∃ suffix w, bm = ms ++ suffix ∧ Solver.replay s suffix = some w ∧ Solver.isGameWon w := by
  intro fuel
  induction fuel with
  | zero => intro s ms v t bm h; simp [Solver.search] at h
  | succ fuel ih =>
    intro s ms v t bm h
    by_cases hc : clock t
    · simp [Solver.search, hc] at h
    · by_cases hw : Solver.isGameWon s
      · simp [Solver.search, hc, hw] at h
        exact ⟨[], s, by simp [h.symm], rfl, hw⟩
      · by_cases hv : Solver.hashGameState s ∈ v
        · simp [Solver.search, hc, hw, hv] at h
        · simp only [Solver.search, hc, hw, hv, Bool.false_eq_true, if_false, ite_false] at h
          revert h
          rcases htm : Solver.tryMoves (fun s' ms' v t => Solver.search clock fuel s' ms' v t)
              s ms (Solver.rankMoves (Solver.generateAllMoves s) s)
              (insert (Solver.hashGameState s) v) (t + 1) with ⟨_ | bm', v2, t2⟩ <;>
            dsimp only <;> intro h
          · cases h
          · injection h with h
            subst h
            exact tryMoves_sound (fun s' ms' v t => Solver.search clock fuel s' ms' v t)
              (fun s' ms' v' t' bm'' h'' => ih s' ms' v' t' bm'' h'') s ms
              (Solver.rankMoves (Solver.generateAllMoves s) s)
              (insert (Solver.hashGameState s) v) (t + 1) bm' (by rw [htm])

/-- C1: whenever `solve` reports `solvable = true`, replaying the
returned move sequence from the input state with `applyMove` succeeds at
every step and ends in a state satisfying the win predicate
`isGameWon`. -/
theorem C1_search_soundness (clock : Nat → Bool) (s : Solver.GameState) (maxDepth : Nat)
    (h : (Solver.solve clock s maxDepth).solvable = true) :
    ∃ w, Solver.replay s (Solver.solve clock s maxDepth).bestMoves = some w ∧
      Solver.isGameWon w := by
  rcases hsr : Solver.search clock maxDepth s [] ∅ 0 with ⟨_ | bm, v2, t2⟩
  · exfalso
    have hbad : Solver.solve clock s maxDepth = ⟨false, [], -1⟩ := by
      unfold Solver.solve Solver.solveFrom
      rw [hsr]
    rw [hbad] at h
    cases h
  · have hgood : Solver.solve clock s maxDepth = ⟨true, bm, (bm.length : Int)⟩ := by
      unfold Solver.solve Solver.solveFrom
      rw [hsr]
    rw [hgood]
    obtain ⟨suffix, w, hbm, hrep, hw⟩ :=
      search_sound clock maxDepth s [] ∅ 0 bm (by rw [hsr])
    simp only [List.nil_append] at hbm
    subst hbm
    exact ⟨w, hrep, hw⟩

theorem C1_search_soundness_witness :
    ∃ w, Solver.replay wonState (Solver.solve clk0 wonState 1).bestMoves = some w ∧
      Solver.isGameWon w :=
  C1_search_soundness clk0 wonState 1 (by decide)

theorem pileIds_take_drop (n : Nat) (l : List Card) :
    pileIds (l.take n) + pileIds (l.drop n) = pileIds l := by
  rw [← pileIds_append, List.take_append_drop]

theorem pileIds_reverse (l : List Card) : pileIds l.reverse = pileIds l := by
  simp [pileIds]

theorem pileIds_flipTopUp (l : List Card) : pileIds (Solver.flipTopUp l) = pileIds l := by
  unfold Solver.flipTopUp
  rcases h : l.getLast? with _ | top
  · rfl
  · by_cases hf : top.faceUp
    · simp [hf]
    · simp only [hf, Bool.false_eq_true, ite_false]
      rw [pileIds_append, pileIds_of_getLast l top h]
      rfl

theorem pileSum_update {α : Type} [DecidableEq α] (f : α → List Card) (a : α)
    (v : List Card) (s : Finset α) (ha : a ∈ s) :
    ∑ x ∈ s, pileIds (Function.update f a v x) =
      pileIds v + ∑ x ∈ s.erase a, pileIds (f x) := by
  have hcongr : ∀ x ∈ s, pileIds (Function.update f a v x) =
      Function.update (fun y => pileIds (f y)) a (pileIds v) x := by
    intro x _
    by_cases hx : x = a
    · subst hx; simp
    · rw [Function.update_noteq hx, Function.update_noteq hx]
  rw [Finset.sum_congr rfl hcongr, Finset.sum_update_of_mem ha,
    Finset.sdiff_singleton_eq_erase]

theorem pileSum_split {α : Type} [DecidableEq α] (f : α → List Card) (a : α)
    (s : Finset α) (ha : a ∈ s) :
    ∑ x ∈ s, pileIds (f x) = pileIds (f a) + ∑ x ∈ s.erase a, pileIds (f x) :=
  (Finset.add_sum_erase s (fun x => pileIds (f x)) ha).symm

theorem cardsOf_update_flip (s : Solver.GameState) (i : Fin 7) :
    Solver.cardsOf { s with
      tableau := Function.update s.tableau i (Solver.flipTopUp (s.tableau i)) } =
      Solver.cardsOf s := by
  unfold Solver.cardsOf
  dsimp only
  rw [pileSum_update s.tableau i _ _ (Finset.mem_univ _),
    pileSum_split s.tableau i _ (Finset.mem_univ _), pileIds_flipTopUp]

theorem cardsOf_update_pair (s : Solver.GameState) (i j : Fin 7) (hij : i ≠ j) (n : Nat) :
    Solver.cardsOf
      ⟨Function.update (Function.update s.tableau i (Solver.flipTopUp ((s.tableau i).take n)))
        j (s.tableau j ++ (s.tableau i).drop n), s.foundations, s.stock, s.waste⟩ =
      Solver.cardsOf s := by
  have hmem : i ∈ Finset.univ.erase j := Finset.mem_erase.mpr ⟨hij, Finset.mem_univ _⟩
  unfold Solver.cardsOf
  dsimp only
  rw [pileSum_update (Function.update s.tableau i _) j _ _ (Finset.mem_univ _),
    pileSum_update s.tableau i _ _ hmem,
    pileSum_split s.tableau j _ (Finset.mem_univ _),
    pileSum_split s.tableau i _ hmem,
    pileIds_flipTopUp, pileIds_append,
    ← pileIds_take_drop n (s.tableau i)]
  abel

theorem applyMove_preserves_cards (s : Solver.GameState) (m : Solver.Move)
    (s' : Solver.GameState) (h : Solver.applyMove s m = some s') :
    Solver.cardsOf s' = Solver.cardsOf s := by
  cases m with
  | stockToWaste =>
    simp only [Solver.applyMove] at h
    split at h
    · injection h with h; subst h; rfl
    next c heq =>
      injection h with h; subst h
      unfold Solver.cardsOf
      dsimp only
      rw [pileIds_of_getLast s.stock c heq, pileIds_append]
      abel
  | wasteToFoundation toSuit card =>
    simp only [Solver.applyMove] at h
    split at h
    · injection h with h; subst h; rfl
    next c heq =>
      injection h with h; subst h
      unfold Solver.cardsOf
      dsimp only
      rw [pileSum_update s.foundations toSuit _ _ (Finset.mem_univ toSuit),
        pileSum_split s.foundations toSuit _ (Finset.mem_univ toSuit),
        pileIds_append, pileIds_of_getLast s.waste c heq]
      abel
  | wasteToTableau toCol card =>
    simp only [Solver.applyMove] at h
    split at h
    · injection h with h; subst h; rfl
    next c heq =>
      split at h
      next ht =>
        injection h with h; subst h
        unfold Solver.cardsOf
        dsimp only
        rw [pileSum_update s.tableau ⟨toCol, ht⟩ _ _ (Finset.mem_univ _),
          pileSum_split s.tableau ⟨toCol, ht⟩ _ (Finset.mem_univ _),
          pileIds_append, pileIds_of_getLast s.waste c heq]
        abel
      next ht => exact Option.noConfusion h
  | tableauToFoundation fromCol toSuit card =>
    simp only [Solver.applyMove] at h
    split at h
    next hf =>
      split at h
      · injection h with h; subst h; rfl
      next c heq =>
        injection h with h; subst h
        unfold Solver.cardsOf
        dsimp only
        rw [pileSum_update s.foundations toSuit _ _ (Finset.mem_univ toSuit),
          pileSum_split s.foundations toSuit _ (Finset.mem_univ toSuit),
          pileSum_update s.tableau ⟨fromCol, hf⟩ _ _ (Finset.mem_univ _),
          pileSum_split s.tableau ⟨fromCol, hf⟩ _ (Finset.mem_univ _),
          pileIds_append, pileIds_flipTopUp,
          pileIds_of_getLast (s.tableau ⟨fromCol, hf⟩) c heq]
        abel
    next hf => exact Option.noConfusion h
  | tableauToTableau fromCol toCol card seqLen0 =>
    simp only [Solver.applyMove] at h
    repeat' split at h
    any_goals exact Option.noConfusion h
    all_goals (injection h with h; subst h)
    any_goals rfl
    · exact cardsOf_update_flip s _
    · exact cardsOf_update_pair s _ _
        (Fin.ne_of_val_ne (show fromCol ≠ toCol by assumption)) _
    · exact cardsOf_update_flip s _
    · exact cardsOf_update_pair s _ _
        (Fin.ne_of_val_ne (show fromCol ≠ toCol by assumption)) _

theorem pileIds_flipNewTop (l : List Card) : pileIds (AIW.flipNewTop l) = pileIds l := by
  unfold AIW.flipNewTop
  rcases h : l.getLast? with _ | top
  · rfl
  · by_cases hf : top.faceUp
    · simp [hf]
    · simp only [hf, Bool.false_eq_true, ite_false]
      rw [pileIds_append, pileIds_of_getLast l top h]
      rfl

theorem pileListSum_set (v : List Card) :
    ∀ (l : List (List Card)) (i : Nat), i < l.length →
      ((l.set i v).map pileIds).sum + pileIds (l.getD i []) =
        (l.map pileIds).sum + pileIds v := by
  intro l
  induction l with
  | nil => intro i hi; simp at hi
  | cons hd tl ih =>
    intro i hi
    cases i with
    | zero =>
      simp only [List.set_cons_zero, List.map_cons, List.sum_cons, List.getD_cons_zero]
      abel
    | succ n =>
      simp only [List.set_cons_succ, List.map_cons, List.sum_cons, List.getD_cons_succ]
      have h2 := ih n (by simpa using hi)
      rw [add_assoc, h2, ← add_assoc]

theorem pileListSum_set_pair (l : List (List Card)) (i j : Nat) (hi : i < l.length)
    (hj : j < l.length) (hij : i ≠ j) (vi vj : List Card) :
    (((l.set i vi).set j vj).map pileIds).sum + pileIds (l.getD i []) + pileIds (l.getD j []) =
      (l.map pileIds).sum + pileIds vi + pileIds vj := by
  have h1 := pileListSum_set vj (l.set i vi) j (by simpa using hj)
  have hgd : (l.set i vi).getD j [] = l.getD j [] := by
    rw [List.getD_eq_getElem?_getD, List.getD_eq_getElem?_getD, List.getElem?_set_ne hij]
  rw [hgd] at h1
  have h2 := pileListSum_set vi l i hi
  calc (((l.set i vi).set j vj).map pileIds).sum + pileIds (l.getD i []) +
        pileIds (l.getD j [])
      = ((((l.set i vi).set j vj).map pileIds).sum + pileIds (l.getD j [])) +
        pileIds (l.getD i []) := by abel
    _ = (((l.set i vi).map pileIds).sum + pileIds vj) + pileIds (l.getD i []) := by rw [h1]
    _ = (((l.set i vi).map pileIds).sum + pileIds (l.getD i [])) + pileIds vj := by abel
    _ = ((l.map pileIds).sum + pileIds vi) + pileIds vj := by rw [h2]

theorem aiCards_foundation_push (s : AIW.AIState) (su : Suit) (c : Card) (d : Nat)
    (hc : s.waste.getLast? = some c) :
    AIW.cardsOf ⟨s.tableau, Function.update s.foundations su (s.foundations su ++ [c]),
      s.stock, s.waste.dropLast, d⟩ = AIW.cardsOf s := by
  unfold AIW.cardsOf
  dsimp only
  rw [pileSum_update s.foundations su _ _ (Finset.mem_univ su),
    pileSum_split s.foundations su _ (Finset.mem_univ su),
    pileIds_append, pileIds_of_getLast s.waste c hc]
  abel

theorem aiCards_t2f (s : AIW.AIState) (i : Nat) (hi : i < s.tableau.length) (su : Suit)
    (c : Card) (d : Nat) (hc : (s.tableau.getD i []).getLast? = some c) :
    AIW.cardsOf ⟨s.tableau.set i (AIW.flipNewTop ((s.tableau.getD i []).dropLast)),
      Function.update s.foundations su (s.foundations su ++ [c]), s.stock, s.waste, d⟩ =
      AIW.cardsOf s := by
  apply add_right_cancel (b := pileIds (s.tableau.getD i []))
  unfold AIW.cardsOf
  dsimp only
  have hset := pileListSum_set (AIW.flipNewTop ((s.tableau.getD i []).dropLast)) s.tableau i hi
  rw [pileIds_flipNewTop] at hset
  calc pileIds s.stock + pileIds s.waste +
        (∑ x : Suit, pileIds (Function.update s.foundations su (s.foundations su ++ [c]) x)) +
        ((s.tableau.set i (AIW.flipNewTop ((s.tableau.getD i []).dropLast))).map pileIds).sum +
        pileIds (s.tableau.getD i [])
      = pileIds s.stock + pileIds s.waste +
        (∑ x : Suit, pileIds (Function.update s.foundations su (s.foundations su ++ [c]) x)) +
        (((s.tableau.set i (AIW.flipNewTop ((s.tableau.getD i []).dropLast))).map
            pileIds).sum + pileIds (s.tableau.getD i [])) := by abel
    _ = pileIds s.stock + pileIds s.waste +
        (∑ x : Suit, pileIds (Function.update s.foundations su (s.foundations su ++ [c]) x)) +
        ((s.tableau.map pileIds).sum + pileIds ((s.tableau.getD i []).dropLast)) := by
          rw [hset]
    _ = pileIds s.stock + pileIds s.waste + (∑ x : Suit, pileIds (s.foundations x)) +
        (s.tableau.map pileIds).sum + pileIds (s.tableau.getD i []) := by
          rw [pileSum_update s.foundations su _ _ (Finset.mem_univ su),
            pileSum_split s.foundations su _ (Finset.mem_univ su),
            pileIds_append, pileIds_of_getLast (s.tableau.getD i []) c hc]
          abel

theorem aiCards_alias (s : AIW.AIState) (i : Nat) (hi : i < s.tableau.length) (d : Nat) :
    AIW.cardsOf ⟨s.tableau.set i (AIW.flipNewTop (s.tableau.getD i [])), s.foundations,
      s.stock, s.waste, d⟩ = AIW.cardsOf s := by
  apply add_right_cancel (b := pileIds (s.tableau.getD i []))
  unfold AIW.cardsOf
  dsimp only
  have hset := pileListSum_set (AIW.flipNewTop (s.tableau.getD i [])) s.tableau i hi
  rw [pileIds_flipNewTop] at hset
  calc pileIds s.stock + pileIds s.waste + (∑ x : Suit, pileIds (s.foundations x)) +
        ((s.tableau.set i (AIW.flipNewTop (s.tableau.getD i []))).map pileIds).sum +
        pileIds (s.tableau.getD i [])
      = pileIds s.stock + pileIds s.waste + (∑ x : Suit, pileIds (s.foundations x)) +
        (((s.tableau.set i (AIW.flipNewTop (s.tableau.getD i []))).map pileIds).sum +
          pileIds (s.tableau.getD i [])) := by abel
    _ = pileIds s.stock + pileIds s.waste + (∑ x : Suit, pileIds (s.foundations x)) +
        ((s.tableau.map pileIds).sum + pileIds (s.tableau.getD i [])) := by rw [hset]
    _ = pileIds s.stock + pileIds s.waste + (∑ x : Suit, pileIds (s.foundations x)) +
        (s.tableau.map pileIds).sum + pileIds (s.tableau.getD i []) := by abel

theorem aiCards_pair (s : AIW.AIState) (i j : Nat) (hi : i < s.tableau.length)
    (hj : j < s.tableau.length) (hij : i ≠ j) (c : Card) (d : Nat)
    (hc : (s.tableau.getD i []).getLast? = some c) :
    AIW.cardsOf ⟨(s.tableau.set i (AIW.flipNewTop ((s.tableau.getD i []).dropLast))).set j
      (s.tableau.getD j [] ++ [c]), s.foundations, s.stock, s.waste, d⟩ = AIW.cardsOf s := by
  apply add_right_cancel
    (b := pileIds (s.tableau.getD i []) + pileIds (s.tableau.getD j []))
  unfold AIW.cardsOf
  dsimp only
  have hset := pileListSum_set_pair s.tableau i j hi hj hij
    (AIW.flipNewTop ((s.tableau.getD i []).dropLast)) (s.tableau.getD j [] ++ [c])
  rw [pileIds_flipNewTop, pileIds_append] at hset
  calc pileIds s.stock + pileIds s.waste + (∑ x : Suit, pileIds (s.foundations x)) +
        (((s.tableau.set i (AIW.flipNewTop ((s.tableau.getD i []).dropLast))).set j
          (s.tableau.getD j [] ++ [c])).map pileIds).sum +
        (pileIds (s.tableau.getD i []) + pileIds (s.tableau.getD j []))
      = pileIds s.stock + pileIds s.waste + (∑ x : Suit, pileIds (s.foundations x)) +
        ((((s.tableau.set i (AIW.flipNewTop ((s.tableau.getD i []).dropLast))).set j
          (s.tableau.getD j [] ++ [c])).map pileIds).sum +
          pileIds (s.tableau.getD i []) + pileIds (s.tableau.getD j [])) := by abel
    _ = pileIds s.stock + pileIds s.waste + (∑ x : Suit, pileIds (s.foundations x)) +
        ((s.tableau.map pileIds).sum + pileIds ((s.tableau.getD i []).dropLast) +
          (pileIds (s.tableau.getD j []) + pileIds [c])) := by rw [hset]
    _ = pileIds s.stock + pileIds s.waste + (∑ x : Suit, pileIds (s.foundations x)) +
        (s.tableau.map pileIds).sum +
        (pileIds (s.tableau.getD i []) + pileIds (s.tableau.getD j [])) := by
          rw [pileIds_of_getLast (s.tableau.getD i []) c hc]
          abel

theorem aiCards_draw (s : AIW.AIState) (q : Nat) (d : Nat) :
    AIW.cardsOf ⟨s.tableau, s.foundations, s.stock.take q, s.waste ++ s.stock.drop q, d⟩ =
      AIW.cardsOf s := by
  unfold AIW.cardsOf
  dsimp only
  rw [pileIds_append, ← pileIds_take_drop q s.stock]
  abel

theorem aiCards_recycle (s : AIW.AIState) (d : Nat) (hs : s.stock = []) :
    AIW.cardsOf ⟨s.tableau, s.foundations, s.waste.reverse, [], d⟩ = AIW.cardsOf s := by
  unfold AIW.cardsOf
  dsimp only
  rw [pileIds_reverse, hs]
  have hnil : pileIds [] = 0 := rfl
  rw [hnil]
  abel

theorem aiApply_preserves_cards (s : AIW.AIState) (m : AIW.AIMove) (s' : AIW.AIState)
    (h : AIW.applyMoveToState s m = some s') : AIW.cardsOf s' = AIW.cardsOf s := by
  cases m with
  | tableauToFoundation i su card p =>
    simp only [AIW.applyMoveToState, AIW.cloneNorm] at h
    split at h
    next hi =>
      split at h
      · exact Option.noConfusion h
      next c heq =>
        injection h with h
        subst h
        exact aiCards_t2f s i hi su c _ heq
    next hi =>
      injection h with h
      subst h
      rfl
  | wasteToFoundation su card p =>
    simp only [AIW.applyMoveToState, AIW.cloneNorm] at h
    split at h
    · exact Option.noConfusion h
    next c heq =>
      injection h with h
      subst h
      exact aiCards_foundation_push s su c _ heq
  | tableauToTableau i j card p =>
    simp only [AIW.applyMoveToState, AIW.cloneNorm] at h
    split at h
    next hi =>
      split at h
      next heq0 =>
        split at h
        · exact Option.noConfusion h
        · injection h with h; subst h; rfl
      next c heq =>
        split at h
        next hj =>
          split at h
          next hij =>
            injection h with h; subst h
            exact aiCards_alias s i hi _
          next hij =>
            injection h with h; subst h
            exact aiCards_pair s i j hi hj hij _ _ heq
        next hj =>
          injection h with h; subst h; rfl
    next hi =>
      injection h with h; subst h; rfl
  | drawStock p dn =>
    simp only [AIW.applyMoveToState, AIW.cloneNorm] at h
    split at h
    next hst =>
      injection h with h; subst h
      exact aiCards_draw s _ _
    next hst =>
      split at h
      next hwa =>
        injection h with h; subst h
        exact aiCards_recycle s _ (List.length_eq_zero.mp (by omega))
      next hwa =>
        injection h with h; subst h
        rfl

/-- C2: both appliers preserve the multiset of card identities on every
successful application (in particular for every generated move), and
hence every state reachable from a 52-card state via generated moves
still carries exactly the standard 52-card deck. -/
theorem C2_deck_integrity :
    (∀ (s : Solver.GameState) (m : Solver.Move) (s' : Solver.GameState),
        Solver.applyMove s m = some s' → Solver.cardsOf s' = Solver.cardsOf s) ∧
    (∀ (s₀ s : Solver.GameState), Solver.cardsOf s₀ = Solver.standardDeck →
        Solver.Reachable s₀ s → Solver.cardsOf s = Solver.standardDeck) ∧
    (∀ (t : AIW.AIState) (m : AIW.AIMove) (t' : AIW.AIState),
        AIW.applyMoveToState t m = some t' → AIW.cardsOf t' = AIW.cardsOf t) := by
  refine ⟨applyMove_preserves_cards, ?_, aiApply_preserves_cards⟩
  intro s₀ s h0 hr
  induction hr with
  | refl => exact h0
  | step m hr hm ha ih => rw [applyMove_preserves_cards _ m _ ha, ih]

theorem C2_deck_integrity_witness :
    Solver.cardsOf wonState = Solver.standardDeck ∧
      AIW.cardsOf ⟨aiRecycleState.tableau, aiRecycleState.foundations,
        aiRecycleState.waste.reverse, [], 3⟩ = AIW.cardsOf aiRecycleState :=
  ⟨C2_deck_integrity.2.1 wonState wonState (by decide) (Solver.Reachable.refl wonState),
   C2_deck_integrity.2.2 aiRecycleState (.drawStock 5 1) _ rfl⟩

theorem aiRule_iff_claim (c : Card) (pile : List Card) :
    AIW.canPlaceOnFoundation c pile ↔ claimFoundationRule c pile := by
  unfold AIW.canPlaceOnFoundation claimFoundationRule
  rcases h : pile.getLast? with _ | top
  · have hnil : pile = [] := List.getLast?_eq_none_iff.mp h
    simp [hnil]
  · constructor
    · rintro ⟨h1, h2⟩
      exact Or.inr ⟨top, rfl, h1, h2.symm⟩
    · rintro (⟨hnil, _⟩ | ⟨top', ht, h1, h2⟩)
      · subst hnil; cases h
      · injection ht with ht
        subst ht
        exact ⟨h1, h2.symm⟩

theorem solverRule_iff_claim (s : Solver.GameState) (hh : homogFoundations s) (c : Card) :
    Solver.canPlaceOnFoundation c s.foundations ↔
      claimFoundationRule c (s.foundations c.suit) := by
  unfold Solver.canPlaceOnFoundation claimFoundationRule
  rcases h : (s.foundations c.suit).getLast? with _ | top
  · have hnil : s.foundations c.suit = [] := List.getLast?_eq_none_iff.mp h
    simp [hnil]
  · constructor
    · intro h1
      refine Or.inr ⟨top, rfl, ?_, h1⟩
      exact hh c.suit top (List.mem_of_mem_getLast? h)
    · rintro (⟨hnil, _⟩ | ⟨top', ht, _, h2⟩)
      · rw [hnil] at h; cases h
      · injection ht with ht
        subst ht
        exact h2

theorem mem_stockMoves {s : Solver.GameState} {m : Solver.Move}
    (h : m ∈ Solver.stockMoves s) : m = Solver.Move.stockToWaste := by
  unfold Solver.stockMoves at h
  split at h
  · cases h
  · simpa using h

theorem mem_wasteFoundationMoves {s : Solver.GameState} {m : Solver.Move} :
    m ∈ Solver.wasteFoundationMoves s ↔
      ∃ c, s.waste.getLast? = some c ∧ Solver.canPlaceOnFoundation c s.foundations ∧
        m = Solver.Move.wasteToFoundation c.suit c := by
  unfold Solver.wasteFoundationMoves
  rcases h : s.waste.getLast? with _ | c
  · simp
  · dsimp only
    split_ifs with hcan
    · simp [hcan]
    · simp [hcan]

theorem mem_wasteTableauMoves {s : Solver.GameState} {m : Solver.Move}
    (h : m ∈ Solver.wasteTableauMoves s) :
    ∃ col c, m = Solver.Move.wasteToTableau col c := by
  unfold Solver.wasteTableauMoves at h
  split at h
  · cases h
  next c heq =>
    obtain ⟨col, _, hcol⟩ := List.mem_filterMap.mp h
    split_ifs at hcol
    · exact ⟨col.val, c, (Option.some.inj hcol).symm⟩

theorem mem_tableauFoundationMoves {s : Solver.GameState} {m : Solver.Move} :
    m ∈ Solver.tableauFoundationMoves s ↔
      ∃ col : Fin 7, ∃ top, (s.tableau col).getLast? = some top ∧ top.faceUp = true ∧
        Solver.canPlaceOnFoundation top s.foundations ∧
        m = Solver.Move.tableauToFoundation col.val top.suit top := by
  unfold Solver.tableauFoundationMoves
  rw [List.mem_filterMap]
  constructor
  · rintro ⟨col, _, hcol⟩
    revert hcol
    rcases ht : (s.tableau col).getLast? with _ | top
    · intro hcol; cases hcol
    · intro hcol
      dsimp only at hcol
      split_ifs at hcol with hcond
      · exact ⟨col, top, ht, hcond.1, hcond.2, (Option.some.inj hcol).symm⟩
  · rintro ⟨col, top, ht, hf, hcan, rfl⟩
    refine ⟨col, List.mem_finRange col, ?_⟩
    rw [ht]
    simp [hf, hcan]

theorem mem_tableauTableauMoves {s : Solver.GameState} {m : Solver.Move}
    (h : m ∈ Solver.tableauTableauMoves s) :
    ∃ a b c k, m = Solver.Move.tableauToTableau a b c k := by
  unfold Solver.tableauTableauMoves at h
  obtain ⟨fromCol, _, h⟩ := List.mem_flatMap.mp h
  dsimp only at h
  split at h
  · cases h
  · obtain ⟨k, _, h⟩ := List.mem_flatMap.mp h
    split at h
    · cases h
    · obtain ⟨toCol, _, hcol⟩ := List.mem_filterMap.mp h
      split_ifs at hcol
      · exact ⟨fromCol.val, toCol.val, _, k + 1, (Option.some.inj hcol).symm⟩

theorem wf_mem_generateAllMoves {s : Solver.GameState} {su : Suit} {c : Card} :
    Solver.Move.wasteToFoundation su c ∈ Solver.generateAllMoves s ↔
      s.waste.getLast? = some c ∧ su = c.suit ∧
        Solver.canPlaceOnFoundation c s.foundations := by
  unfold Solver.generateAllMoves
  simp only [List.mem_append]
  constructor
  · rintro ((((h | h) | h) | h) | h)
    · exact Solver.Move.noConfusion (mem_stockMoves h)
    · obtain ⟨c', hw, hcan, heq⟩ := mem_wasteFoundationMoves.mp h
      injection heq with h1 h2
      subst h2
      exact ⟨hw, h1, hcan⟩
    · obtain ⟨col, c', habs⟩ := mem_wasteTableauMoves h
      exact Solver.Move.noConfusion habs
    · obtain ⟨col, top, _, _, _, habs⟩ := mem_tableauFoundationMoves.mp h
      exact Solver.Move.noConfusion habs
    · obtain ⟨a, b, c', k, habs⟩ := mem_tableauTableauMoves h
      exact Solver.Move.noConfusion habs
  · rintro ⟨hw, rfl, hcan⟩
    exact Or.inl (Or.inl (Or.inl (Or.inr (mem_wasteFoundationMoves.mpr ⟨c, hw, hcan, rfl⟩))))

theorem tf_mem_generateAllMoves {s : Solver.GameState} {i : Nat} {su : Suit} {c : Card} :
    Solver.Move.tableauToFoundation i su c ∈ Solver.generateAllMoves s ↔
      ∃ h : i < 7, (s.tableau ⟨i, h⟩).getLast? = some c ∧ c.faceUp = true ∧
        su = c.suit ∧ Solver.canPlaceOnFoundation c s.foundations := by
  unfold Solver.generateAllMoves
  simp only [List.mem_append]
  constructor
  · rintro ((((h | h) | h) | h) | h)
    · exact Solver.Move.noConfusion (mem_stockMoves h)
    · obtain ⟨c', _, _, habs⟩ := mem_wasteFoundationMoves.mp h
      exact Solver.Move.noConfusion habs
    · obtain ⟨col, c', habs⟩ := mem_wasteTableauMoves h
      exact Solver.Move.noConfusion habs
    · obtain ⟨col, top, ht, hf, hcan, heq⟩ := mem_tableauFoundationMoves.mp h
      injection heq with h1 h2 h3
      subst h3
      subst h1
      exact ⟨col.isLt, ht, hf, h2, hcan⟩
    · obtain ⟨a, b, c', k, habs⟩ := mem_tableauTableauMoves h
      exact Solver.Move.noConfusion habs
  · rintro ⟨hlt, ht, hf, rfl, hcan⟩
    refine Or.inl (Or.inr (mem_tableauFoundationMoves.mpr ⟨⟨i, hlt⟩, c, ht, hf, hcan, rfl⟩))

theorem suitKeys_complete (su : Suit) : su ∈ AIW.suitKeys := by
  cases su <;> simp [AIW.suitKeys]

theorem mem_wfMoves {t : AIW.AIState} {m : AIW.AIMove} :
    m ∈ AIW.wfMoves t ↔
      ∃ top, t.waste.getLast? = some top ∧
        ∃ su, AIW.canPlaceOnFoundation top (t.foundations su) ∧
          m = AIW.AIMove.wasteToFoundation su top (900 + (top.value : Int)) := by
  unfold AIW.wfMoves
  rcases h : t.waste.getLast? with _ | top
  · simp
  · dsimp only
    rw [List.mem_filterMap]
    constructor
    · rintro ⟨su, _, hsu⟩
      split_ifs at hsu with hcan
      · exact ⟨top, rfl, su, hcan, (Option.some.inj hsu).symm⟩
    · rintro ⟨top', heq, su, hcan, rfl⟩
      injection heq with heq
      subst heq
      exact ⟨su, suitKeys_complete su, by simp [hcan]⟩

theorem mem_tfMoves {t : AIW.AIState} {m : AIW.AIMove} :
    m ∈ AIW.tfMoves t ↔
      ∃ i, i < t.tableau.length ∧ ∃ top,
        (t.tableau.getD i []).getLast? = some top ∧ top.faceUp = true ∧
        ∃ su, AIW.canPlaceOnFoundation top (t.foundations su) ∧
          m = AIW.AIMove.tableauToFoundation i su top (1000 + (top.value : Int)) := by
  unfold AIW.tfMoves
  rw [List.mem_flatMap]
  constructor
  · rintro ⟨i, hi, h⟩
    rw [List.mem_range] at hi
    revert h
    dsimp only
    rcases ht : (t.tableau.getD i []).getLast? with _ | top
    · intro h; cases h
    · intro h
      dsimp only at h
      split_ifs at h with hf
      · obtain ⟨su, _, hsu⟩ := List.mem_filterMap.mp h
        split_ifs at hsu with hcan
        · exact ⟨i, hi, top, ht, hf, su, hcan, (Option.some.inj hsu).symm⟩
      · cases h
  · rintro ⟨i, hi, top, ht, hf, su, hcan, rfl⟩
    refine ⟨i, List.mem_range.mpr hi, ?_⟩
    dsimp only
    rw [ht]
    simp only [hf, ite_true]
    exact List.mem_filterMap.mpr ⟨su, suitKeys_complete su, by simp [hcan]⟩

theorem mem_ttMoves {t : AIW.AIState} {m : AIW.AIMove}
    (h : m ∈ AIW.ttMoves t) : ∃ a b c p, m = AIW.AIMove.tableauToTableau a b c p := by
  unfold AIW.ttMoves at h
  obtain ⟨i, _, h⟩ := List.mem_flatMap.mp h
  dsimp only at h
  split at h
  · cases h
  next top heq =>
    split at h
    · obtain ⟨j, _, hj⟩ := List.mem_filterMap.mp h
      split at hj
      next hcond => exact ⟨i, j, top, _, (Option.some.inj hj).symm⟩
      next => cases hj
    · cases h

theorem genAI_some_shape {fuel : Nat} {t : AIW.AIState} {ms : List AIW.AIMove}
    (h : AIW.generateAllPossibleMoves fuel t = some ms) :
    ms = AIW.tfMoves t ++ AIW.wfMoves t ++ AIW.ttMoves t ∨
      ∃ p dn, ms = AIW.tfMoves t ++ AIW.wfMoves t ++ AIW.ttMoves t ++
        [AIW.AIMove.drawStock p dn] := by
  rw [AIW.generateAllPossibleMoves.eq_def] at h
  dsimp only at h
  split at h
  · split at h
    · cases h
    · split at h
      · cases h
      · injection h with h
        exact Or.inr ⟨_, _, h.symm⟩
  · injection h with h
    exact Or.inl h.symm

theorem ai_wf_offer {fuel : Nat} {t : AIW.AIState} {ms : List AIW.AIMove}
    (h : AIW.generateAllPossibleMoves fuel t = some ms) (c : Card) (su : Suit) :
    (∃ p, AIW.AIMove.wasteToFoundation su c p ∈ ms) ↔
      t.waste.getLast? = some c ∧ AIW.canPlaceOnFoundation c (t.foundations su) := by
  have hmem : ∀ p : Int, (AIW.AIMove.wasteToFoundation su c p ∈ ms ↔
      AIW.AIMove.wasteToFoundation su c p ∈
        AIW.tfMoves t ++ AIW.wfMoves t ++ AIW.ttMoves t) := by
    intro p
    rcases genAI_some_shape h with hsh | ⟨q, dn, hsh⟩ <;> subst hsh <;>
      simp [List.mem_append]
  constructor
  · rintro ⟨p, hp⟩
    rw [hmem p] at hp
    rcases List.mem_append.mp hp with hp | hp
    · rcases List.mem_append.mp hp with hp | hp
      · obtain ⟨i, _, top, _, _, su', _, habs⟩ := mem_tfMoves.mp hp
        exact AIW.AIMove.noConfusion habs
      · obtain ⟨top, hw, su', hcan, heq⟩ := mem_wfMoves.mp hp
        injection heq with h1 h2 h3
        subst h1
        subst h2
        exact ⟨hw, hcan⟩
    · obtain ⟨a, b, c', q, habs⟩ := mem_ttMoves hp
      exact AIW.AIMove.noConfusion habs
  · rintro ⟨hw, hcan⟩
    refine ⟨900 + (c.value : Int), ?_⟩
    rw [hmem _]
    exact List.mem_append.mpr (Or.inl (List.mem_append.mpr (Or.inr
      (mem_wfMoves.mpr ⟨c, hw, su, hcan, rfl⟩))))

theorem ai_tf_offer {fuel : Nat} {t : AIW.AIState} {ms : List AIW.AIMove}
    (h : AIW.generateAllPossibleMoves fuel t = some ms) (c : Card) (su : Suit) (i : Nat) :
    (∃ p, AIW.AIMove.tableauToFoundation i su c p ∈ ms) ↔
      i < t.tableau.length ∧ (t.tableau.getD i []).getLast? = some c ∧
        c.faceUp = true ∧ AIW.canPlaceOnFoundation c (t.foundations su) := by
  have hmem : ∀ p : Int, (AIW.AIMove.tableauToFoundation i su c p ∈ ms ↔
      AIW.AIMove.tableauToFoundation i su c p ∈
        AIW.tfMoves t ++ AIW.wfMoves t ++ AIW.ttMoves t) := by
    intro p
    rcases genAI_some_shape h with hsh | ⟨q, dn, hsh⟩ <;> subst hsh <;>
      simp [List.mem_append]
  constructor
  · rintro ⟨p, hp⟩
    rw [hmem p] at hp
    rcases List.mem_append.mp hp with hp | hp
    · rcases List.mem_append.mp hp with hp | hp
      · obtain ⟨i', hi', top, ht, hf, su', hcan, heq⟩ := mem_tfMoves.mp hp
        injection heq with h1 h2 h3 h4
        subst h1
        subst h2
        subst h3
        exact ⟨hi', ht, hf, hcan⟩
      · obtain ⟨top, _, su', _, habs⟩ := mem_wfMoves.mp hp
        exact AIW.AIMove.noConfusion habs
    · obtain ⟨a, b, c', q, habs⟩ := mem_ttMoves hp
      exact AIW.AIMove.noConfusion habs
  · rintro ⟨hi, ht, hf, hcan⟩
    refine ⟨1000 + (c.value : Int), ?_⟩
    rw [hmem _]
    exact List.mem_append.mpr (Or.inl (List.mem_append.mpr (Or.inl
      (mem_tfMoves.mpr ⟨i, hi, c, ht, hf, su, hcan, rfl⟩))))

/-- C3 (amended): for the AI worker, whenever its generator returns (it
stack-overflows unless stock and waste are both empty), an available
card C (waste top, or face-up tableau top) is offered onto the
foundation pile of suit `su` exactly when the claim's placement rule
holds for that pile — with NO suit restriction in the empty-pile case,
so an Ace is offered onto every suit's empty pile.  The solver worker's
generator instead only ever targets the card's own suit's foundation:
a move onto `F(su)` is generated exactly when `su` is the card's suit
and the claim's rule holds for the card's own pile (foundation piles
assumed suit-homogeneous). -/
theorem C3_foundation_offer_rule :
    (∀ (fuel : Nat) (t : AIW.AIState) (ms : List AIW.AIMove),
        AIW.generateAllPossibleMoves fuel t = some ms → ∀ (c : Card) (su : Suit),
        ((∃ p, AIW.AIMove.wasteToFoundation su c p ∈ ms) ↔
          t.waste.getLast? = some c ∧ claimFoundationRule c (t.foundations su)) ∧
        (∀ i, (∃ p, AIW.AIMove.tableauToFoundation i su c p ∈ ms) ↔
          i < t.tableau.length ∧ (t.tableau.getD i []).getLast? = some c ∧
            c.faceUp = true ∧ claimFoundationRule c (t.foundations su))) ∧
    (∀ (s : Solver.GameState), homogFoundations s → ∀ (c : Card) (su : Suit),
        (Solver.Move.wasteToFoundation su c ∈ Solver.generateAllMoves s ↔
          s.waste.getLast? = some c ∧ su = c.suit ∧
            claimFoundationRule c (s.foundations c.suit)) ∧
        (∀ i, Solver.Move.tableauToFoundation i su c ∈ Solver.generateAllMoves s ↔
          ∃ h : i < 7, (s.tableau ⟨i, h⟩).getLast? = some c ∧ c.faceUp = true ∧
            su = c.suit ∧ claimFoundationRule c (s.foundations c.suit))) := by
  constructor
  · intro fuel t ms h c su
    constructor
    · rw [ai_wf_offer h c su, aiRule_iff_claim]
    · intro i
      rw [ai_tf_offer h c su i, aiRule_iff_claim]
  · intro s hh c su
    constructor
    · rw [wf_mem_generateAllMoves, solverRule_iff_claim s hh]
    · intro i
      rw [tf_mem_generateAllMoves, solverRule_iff_claim s hh]

/-- C3 (counterexample to the claim as stated): from `aiAceState` (a
lone face-up Ace of spades on column 0, all foundations empty) the AI
worker's generator offers the Ace onto the HEARTS foundation — a
foundation move onto another suit's empty pile, which the claim says is
never generated. -/
theorem C3_counterexample :
    (AIW.generateAllPossibleMoves 0 aiAceState).isSome = true ∧
      AIW.AIMove.tableauToFoundation 0 Suit.hearts ⟨Suit.spades, 1, true⟩ 1001 ∈
        (AIW.generateAllPossibleMoves 0 aiAceState).getD [] ∧
      aiAceState.foundations Suit.hearts = [] ∧
      (⟨Suit.spades, 1, true⟩ : Card).suit ≠ Suit.hearts :=
  ⟨by decide, by decide, rfl, by decide⟩

theorem C3_foundation_offer_rule_witness :
    ((∃ p, AIW.AIMove.tableauToFoundation 0 Suit.hearts ⟨Suit.spades, 1, true⟩ p ∈
        (AIW.generateAllPossibleMoves 0 aiAceState).getD []) ↔
      0 < aiAceState.tableau.length ∧
        (aiAceState.tableau.getD 0 []).getLast? = some ⟨Suit.spades, 1, true⟩ ∧
        (⟨Suit.spades, 1, true⟩ : Card).faceUp = true ∧
        claimFoundationRule ⟨Suit.spades, 1, true⟩ (aiAceState.foundations Suit.hearts)) ∧
    (Solver.Move.wasteToFoundation Suit.spades ⟨Suit.spades, 1, true⟩ ∈
        Solver.generateAllMoves wonState ↔
      wonState.waste.getLast? = some ⟨Suit.spades, 1, true⟩ ∧
        Suit.spades = (⟨Suit.spades, 1, true⟩ : Card).suit ∧
        claimFoundationRule ⟨Suit.spades, 1, true⟩
          (wonState.foundations (⟨Suit.spades, 1, true⟩ : Card).suit)) :=
  ⟨((C3_foundation_offer_rule.1 0 aiAceState _ rfl ⟨Suit.spades, 1, true⟩ Suit.hearts).2 0),
   (C3_foundation_offer_rule.2 wonState (by decide) ⟨Suit.spades, 1, true⟩ Suit.spades).1⟩

theorem revealBonus_cases (s : Solver.GameState) (i : Nat) :
    Solver.revealBonus s i = 0 ∨ Solver.revealBonus s i = 500 := by
  unfold Solver.revealBonus
  by_cases h1 : i < 7
  · simp only [dif_pos h1]
    by_cases h2 : 1 < (s.tableau ⟨i, h1⟩).length
    · simp only [if_pos h2]
      rcases (s.tableau ⟨i, h1⟩).dropLast.getLast? with _ | below
      · exact Or.inl rfl
      · by_cases h3 : below.faceUp = true
        · exact Or.inl (by simp [h3])
        · exact Or.inr (by simp [h3])
    · simp only [if_neg h2]
      trivial
  · simp only [dif_neg h1]
    trivial

theorem revealBonus_bounds (s : Solver.GameState) (i : Nat) :
    0 ≤ Solver.revealBonus s i ∧ Solver.revealBonus s i ≤ 500 := by
  rcases revealBonus_cases s i with h | h <;> rw [h] <;> norm_num

theorem kingBonus_cases (s : Solver.GameState) (c : Card) (i : Nat) :
    Solver.kingBonus s c i = 0 ∨ Solver.kingBonus s c i = 300 := by
  unfold Solver.kingBonus
  by_cases h1 : i < 7
  · simp only [dif_pos h1]
    split_ifs
    · exact Or.inr rfl
    · exact Or.inl rfl
  · simp only [dif_neg h1]
    trivial

theorem kingBonus_bounds (s : Solver.GameState) (c : Card) (i : Nat) :
    0 ≤ Solver.kingBonus s c i ∧ Solver.kingBonus s c i ≤ 300 := by
  rcases kingBonus_cases s c i with h | h <;> rw [h] <;> norm_num

theorem foundation_score_gt (s : Solver.GameState) (hb : cardValuesBounded s)
    (m₁ m₂ : Solver.Move) (h₁ : m₁ ∈ Solver.generateAllMoves s)
    (hf₁ : isFoundationMove m₁) (hf₂ : ¬isFoundationMove m₂) :
    Solver.getMoveScore m₂ s < Solver.getMoveScore m₁ s := by
  have hm2 : Solver.getMoveScore m₂ s ≤ 800 := by
    cases m₂ with
    | stockToWaste => simp [Solver.getMoveScore]
    | wasteToFoundation su c => exact absurd trivial hf₂
    | wasteToTableau toCol c =>
      have hk := kingBonus_bounds s c toCol
      simp only [Solver.getMoveScore]
      omega
    | tableauToFoundation i su c => exact absurd trivial hf₂
    | tableauToTableau a b c k =>
      have hr := revealBonus_bounds s a
      have hk := kingBonus_bounds s c b
      simp only [Solver.getMoveScore]
      omega
  have hm1 : (1010 : Int) ≤ Solver.getMoveScore m₁ s := by
    cases m₁ with
    | stockToWaste => exact hf₁.elim
    | wasteToTableau toCol c => exact hf₁.elim
    | tableauToTableau a b c k => exact hf₁.elim
    | wasteToFoundation su c =>
      obtain ⟨hw, _, _⟩ := wf_mem_generateAllMoves.mp h₁
      have hc : c.value ≤ 13 := hb.2.1 c (List.mem_of_mem_getLast? hw)
      simp only [Solver.getMoveScore]
      omega
    | tableauToFoundation i su c =>
      obtain ⟨hlt, ht, _, _, _⟩ := tf_mem_generateAllMoves.mp h₁
      have hc : c.value ≤ 13 := hb.2.2.2 ⟨i, hlt⟩ c (List.mem_of_mem_getLast? ht)
      have hr := revealBonus_bounds s i
      simp only [Solver.getMoveScore]
      omega
  omega

theorem mem_insertByScore (score : Solver.Move → Int) (m x : Solver.Move)
    (l : List Solver.Move) :
    x ∈ Solver.insertByScore score m l ↔ x = m ∨ x ∈ l := by
  induction l with
  | nil => simp [Solver.insertByScore]
  | cons y ys ih =>
    unfold Solver.insertByScore
    split_ifs
    · simp [List.mem_cons]
    · simp only [List.mem_cons, ih]
      tauto

theorem sorted_insertByScore (score : Solver.Move → Int) (m : Solver.Move)
    (l : List Solver.Move) (hl : l.Pairwise (fun a b => score b ≤ score a)) :
    (Solver.insertByScore score m l).Pairwise (fun a b => score b ≤ score a) := by
  induction l with
  | nil => simp [Solver.insertByScore]
  | cons y ys ih =>
    rw [List.pairwise_cons] at hl
    obtain ⟨hy, hys⟩ := hl
    unfold Solver.insertByScore
    split_ifs with hc
    · refine List.Pairwise.cons ?_ (List.Pairwise.cons hy hys)
      intro z hz
      rcases List.mem_cons.mp hz with rfl | hz
      · exact hc
      · exact le_trans (hy z hz) hc
    · refine List.Pairwise.cons ?_ (ih hys)
      intro z hz
      rcases (mem_insertByScore score m z ys).mp hz with rfl | hz
      · omega
      · exact hy z hz

theorem sorted_sortByScore (score : Solver.Move → Int) (l : List Solver.Move) :
    (Solver.sortByScore score l).Pairwise (fun a b => score b ≤ score a) := by
  induction l with
  | nil => simp [Solver.sortByScore]
  | cons m ms ih => exact sorted_insertByScore score m _ ih

theorem mem_sortByScore (score : Solver.Move → Int) (x : Solver.Move)
    (l : List Solver.Move) : x ∈ Solver.sortByScore score l ↔ x ∈ l := by
  induction l with
  | nil => simp [Solver.sortByScore]
  | cons m ms ih =>
    unfold Solver.sortByScore
    rw [mem_insertByScore, ih, List.mem_cons]

/-- C7: on states whose cards have values at most 13, every
foundation-category move generated for the state scores strictly higher
under `getMoveScore` than every generated non-foundation move, for every
combination of reveal and King bonuses; consequently in the ranker's
descending-order output no non-foundation move ever precedes a
foundation move. -/
theorem C7_foundation_moves_rank_first (s : Solver.GameState) (hb : cardValuesBounded s) :
    (∀ m₁ ∈ Solver.generateAllMoves s, ∀ m₂ ∈ Solver.generateAllMoves s,
      isFoundationMove m₁ → ¬isFoundationMove m₂ →
        Solver.getMoveScore m₂ s < Solver.getMoveScore m₁ s) ∧
    (Solver.rankMoves (Solver.generateAllMoves s) s).Pairwise
      (fun a b => isFoundationMove b → isFoundationMove a) := by
  refine ⟨fun m₁ h₁ m₂ h₂ hf₁ hf₂ => foundation_score_gt s hb m₁ m₂ h₁ hf₁ hf₂, ?_⟩
  have hsorted := sorted_sortByScore (fun m => Solver.getMoveScore m s)
    (Solver.generateAllMoves s)
  unfold Solver.rankMoves
  refine hsorted.imp_of_mem ?_
  intro a b ha hb' hR hfb
  by_contra hfa
  have hag : a ∈ Solver.generateAllMoves s :=
    (mem_sortByScore (fun m => Solver.getMoveScore m s) a _).mp ha
  have hbg : b ∈ Solver.generateAllMoves s :=
    (mem_sortByScore (fun m => Solver.getMoveScore m s) b _).mp hb'
  have hlt := foundation_score_gt s hb b a hbg hfb hfa
  simp only at hR
  omega

theorem C7_foundation_moves_rank_first_witness :
    (Solver.rankMoves (Solver.generateAllMoves wonState) wonState).Pairwise
      (fun a b => isFoundationMove b → isFoundationMove a) :=
  (C7_foundation_moves_rank_first wonState (by decide)).2
